import Mathlib

/-!
Shallow embedding of the rpcad repository (src/src/rpcad), focusing on the
cross-thread dispatch bridge in `fusion.py` (FusionFuture, the pending-futures
registry, the dispatcher wrapper, DispatchHandler.notify, register_events) and
the batch-command execution in `service.py`.

Python `Optional[T]` slots are modelled as `Option T`; a stored Python `None`
and an unset slot are both `none`, exactly as in the source where both are the
same `None` object.  Exceptions are modelled by an error type parameter `E`;
fallible Python code returns `Except`.  The `threading.Event` inside a future
is modelled by its boolean set-flag; real-time blocking is outside the model,
so `wait`/`get_result` are functions of the future's state at the moment the
wait concludes (an incomplete future at that moment means the timeout elapsed).
-/

deriving instance DecidableEq for Except

namespace Rpcad

/-- Model of `FusionFuture` (fusion.py lines 53-106).
`E` is the exception type, `T` the (non-None) result value type, `C` the type
used to represent the stored completion-callback object, `A` the type of the
captured `args`/`kwargs`.  `result`/`exception` model the `Optional` slots
`_result`/`_exception` (initialised `None`), `eventSet` models
`self._event.is_set()`. -/
structure FusionFuture (E T C A : Type) where
  result : Option T := none
  exception : Option E := none
  eventSet : Bool := false
  args : A
  callback : Option C := none
deriving Repr, DecidableEq

/-- A callback invocation emitted by `set_result`/`set_exception`: the stored
callback object together with the `Union[T, Exception]` argument it was called
with.  Python callbacks are side-effecting procedures; the model returns the
invocation for the caller (the dispatch system) to interpret. -/
def CallbackCall (E T C : Type) : Type := C × (Option T ⊕ E)

/-- `FusionFuture.set_result` (fusion.py lines 68-74): store the result, set
the event, and if a callback is present invoke it with the result and clear it.
The argument is `Option T` because the wrapped operation may return `None`. -/
def FusionFuture.set_result (f : FusionFuture E T C A) (result : Option T) :
    FusionFuture E T C A × Option (CallbackCall E T C) :=
  let f := { f with result := result, eventSet := true }
  match f.callback with
  | some cb => ({ f with callback := none }, some (cb, Sum.inl result))
  | none => (f, none)

/-- `FusionFuture.set_exception` (fusion.py lines 76-81): store the exception,
set the event, and if a callback is present invoke it with the exception.
Unlike `set_result`, the source does NOT clear `self.callback` here. -/
def FusionFuture.set_exception (f : FusionFuture E T C A) (exception : E) :
    FusionFuture E T C A × Option (CallbackCall E T C) :=
  let f := { f with exception := some exception, eventSet := true }
  match f.callback with
  | some cb => (f, some (cb, Sum.inr exception))
  | none => (f, none)

/-- `FusionFuture.wait` (fusion.py lines 83-84): returns whether the event is
set at the moment the wait concludes (if the future is incomplete then, the
timeout elapsed and the wait returned `False`). -/
def FusionFuture.wait (f : FusionFuture E T C A) : Bool :=
  f.eventSet

/-- `FusionFuture.has_result` (fusion.py lines 86-88):
`self._event.is_set() and self._result is not None`. -/
def FusionFuture.has_result (f : FusionFuture E T C A) : Bool :=
  f.eventSet && f.result.isSome

/-- `FusionFuture.has_exception` (fusion.py lines 90-92):
`self._event.is_set() and self._exception is not None`. -/
def FusionFuture.has_exception (f : FusionFuture E T C A) : Bool :=
  f.eventSet && f.exception.isSome

/-- `FusionFuture.completed` (fusion.py lines 94-96). -/
def FusionFuture.completed (f : FusionFuture E T C A) : Bool :=
  f.eventSet

/-- Outcome of a `get_result` call: either the stored `_result`
(an `Optional` in the source, returned as-is), or a raised exception -
`TimeoutError` when the wait timed out, or the stored `_exception`. -/
inductive GetResultError (E : Type) where
  | timedOut
  | exn (e : E)
deriving Repr, DecidableEq

/-- `FusionFuture.get_result` (fusion.py lines 98-106): if the wait did not
finish, raise `TimeoutError`; else re-raise the stored exception if any; else
return `self._result` (the raw `Optional` slot).  Pure: the source mutates no
state here, so the future is unchanged by a call. -/
def FusionFuture.get_result (f : FusionFuture E T C A) :
    Except (GetResultError E) (Option T) :=
  if !f.eventSet then
    .error .timedOut
  else
    match f.exception with
    | some e => .error (.exn e)
    | none => .ok f.result

/-! ### The pending-futures registry and the dispatcher (fusion.py 109-220)

The `_FUTURES` dict is modelled as an association list with string keys (a
Python dict has unique keys; insertion appends).  Dict operations are spelled
out so membership, mutation and `pop` match the source operations they embed.
The `_FUTURES_LOCK` only serialises registry access; the model is sequential,
so the lock has no separate representation. -/

/-- `key in dict` / `dict[key]` lookup (first entry with the key). -/
def dictLookup (d : List (String × β)) (k : String) : Option β :=
  match d with
  | [] => none
  | (k', v) :: rest => if k' = k then some v else dictLookup rest k

/-- In-place mutation of the object stored at a key (Python objects are
mutated through the dict reference; the model writes the new value back). -/
def dictUpdate (d : List (String × β)) (k : String) (v : β) : List (String × β) :=
  d.map fun p => if p.1 = k then (k, v) else p

/-- `dict.pop(key, None)`: remove the entry for the key if present. -/
def dictPop (d : List (String × β)) (k : String) : List (String × β) :=
  match d with
  | [] => []
  | p :: rest => if p.1 = k then dictPop rest k else p :: dictPop rest k

/-- The dispatch key `f"{id}#{index}"` (fusion.py line 188). -/
def mkKey (id : String) (index : Nat) : String := s!"{id}#{index}"

/-- The key-probing loop of the dispatcher (fusion.py lines 185-194):
starting at `index`, increment while `mkKey id index` is already a key of the
dict, and return the first free index.  The source loop is `while True`; the
model bounds it by explicit fuel (callers pass `d.length + 1`, enough steps
for a finite dict whose keys are distinct strings). -/
def probeIndex (id : String) (d : List (String × β)) : Nat → Nat → Option Nat
  | 0, _ => none
  | fuel + 1, index =>
    if (dictLookup d (mkKey id index)).isSome then probeIndex id d fuel (index + 1)
    else some index

/-- The callback stored on every dispatched future is the wrapper `handler`
closure (fusion.py lines 198-204): it captures the dispatch `key` and the
optional caller-supplied `callback` (identified here by a numeric id so the
model can record deliveries to it). -/
structure WrapperCallback where
  key : String
  callerCallback : Option Nat
deriving Repr, DecidableEq

/-- A future as stored by the dispatcher: its callback slot holds a
`WrapperCallback`. -/
abbrev DFuture (E T A : Type) := FusionFuture E T WrapperCallback A

/-- State of the dispatch bridge: the `_FUTURES` registry, the
`app.fireCustomEvent(id, key)` calls issued to the host, and the record of
caller-callback invocations (callback id, `Union[result, exception]` value). -/
structure DispatchState (E T A : Type) where
  futures : List (String × DFuture E T A) := []
  firedEvents : List (String × String) := []
  delivered : List (Nat × (Option T ⊕ E)) := []
deriving Repr, DecidableEq

/-- The wrapper `handler` callback body (fusion.py lines 198-202): invoke the
caller-supplied callback if any with the result-or-exception, then pop the
key from the registry under the lock. -/
def runWrapperCallback (s : DispatchState E T A)
    (call : CallbackCall E T WrapperCallback) : DispatchState E T A :=
  let s := match call.1.callerCallback with
    | some cid => { s with delivered := s.delivered ++ [(cid, call.2)] }
    | none => s
  { s with futures := dictPop s.futures call.1.key }

/-- The first half of the dispatcher wrapper (fusion.py lines 180-207): build
a `FusionFuture` capturing `args` with `callback=None`; under the lock probe
for the first unused key and insert the future there; then assign the wrapper
closure to `future.callback`; finally `app.fireCustomEvent(id, key)`.
Returns the allocated key and the new state; `none` only if the probe fuel
(`length + 1`) runs out, which a finite dict of distinct keys cannot cause. -/
def dispatchStart (id : String) (args : A) (callback : Option Nat)
    (s : DispatchState E T A) : Option (String × DispatchState E T A) :=
  let future : DFuture E T A := { args := args }
  match probeIndex id s.futures (s.futures.length + 1) 0 with
  | none => none
  | some index =>
    let key := mkKey id index
    let s1 := { s with futures := s.futures ++ [(key, future)] }
    -- `future.callback = handler`: mutates the object just inserted
    let s2 := { s1 with
      futures := dictUpdate s1.futures key
        { future with callback := some ⟨key, callback⟩ } }
    some (key, { s2 with firedEvents := s2.firedEvents ++ [(id, key)] })

/-- `DispatchHandler.notify` (fusion.py lines 121-140), parameterised by the
real operation `handler : A → Except E (Option T)` it was constructed with:
look up the future at `eventArgs.additionalInfo` (a `KeyError` — `none` — if
absent), run the operation on the stored args, `set_result` on success or
`set_exception` on a raised error, and interpret the emitted callback
invocation (the wrapper).  The host-UI modal check (lines 123-129) and the
log-handler flushes (lines 139-140) touch no bridge state and are omitted.
Returns the completed future object (which the dispatcher still references)
and the new state. -/
def notify (handler : A → Except E (Option T)) (key : String)
    (s : DispatchState E T A) : Option (DFuture E T A × DispatchState E T A) :=
  match dictLookup s.futures key with
  | none => none
  | some future =>
    let step :=
      match handler future.args with
      | .ok result => future.set_result result
      | .error e => future.set_exception e
    let s1 := { s with futures := dictUpdate s.futures key step.1 }
    let s2 := match step.2 with
      | some call => runWrapperCallback s1 call
      | none => s1
    some (step.1, s2)

/-- One complete dispatched call (fusion.py lines 174-214): the wrapper runs
`dispatchStart`, the host's privileged thread runs `notify` for the fired
event, and the wrapper's return value is `future.get_result()` when no caller
callback was supplied (it blocks until `notify` completes, hence the
sequencing) or `None` when one was (the wrapper returns before `notify` runs;
the model sequences `notify` into the round to capture the later delivery,
which does not affect the returned value). -/
def dispatchRound (handler : A → Except E (Option T)) (id : String) (args : A)
    (callback : Option Nat) (s : DispatchState E T A) :
    Option (Option (Except (GetResultError E) (Option T)) × DispatchState E T A) :=
  match dispatchStart id args callback s with
  | none => none
  | some (key, s1) =>
    match notify handler key s1 with
    | none => none
    | some (future, s2) =>
      match callback with
      | none => some (some future.get_result, s2)
      | some _ => some (none, s2)

/-- A sequence of dispatched calls of one operation, each run to completion
(dispatch, host-side notify, return) before the next begins. -/
def runCalls (handler : A → Except E (Option T)) :
    List (String × A × Option Nat) → DispatchState E T A →
    Option (DispatchState E T A)
  | [], s => some s
  | (id, args, cb) :: rest, s =>
    match dispatchRound handler id args cb s with
    | none => none
    | some (_, s') => runCalls handler rest s'

/-! ### Event registration (fusion.py 255-270) -/

/-- Host-side registration state: the ids of the custom events currently
registered with the application. -/
structure HostState where
  registered : List String := []
deriving Repr, DecidableEq

/-- Modelled from the spec: `adsk.core.Application.registerCustomEvent` is
host API outside this repository.  The spec's registration-failure example is
a duplicate id ("if an event cannot be registered (e.g., duplicate id)"), so
the model fails exactly on an already-registered id and otherwise adds it. -/
def registerCustomEvent (h : HostState) (id : String) : Option HostState :=
  if id ∈ h.registered then none
  else some { registered := h.registered ++ [id] }

/-- `register_events` (fusion.py lines 255-270): for each declared event id,
register it with the host, create a `DispatchHandler`, attach it, and record
the pair in the `events` dict (modelled by its key list; the handler objects
carry no state the claims need).  The loop body has no exception handling: if
a registration raises, the exception propagates (`none`) with the host state
as it is at that moment — earlier registrations of the same batch are not
undone. -/
def register_events : List String → HostState → HostState × Option (List String)
  | [], h => (h, some [])
  | id :: rest, h =>
    match registerCustomEvent h id with
    | none => (h, none)
    | some h' =>
      match register_events rest h' with
      | (h'', none) => (h'', none)
      | (h'', some events) => (h'', some (id :: events))

/-! ### Batch command execution (service.py 199-262, commands.py 12-16) -/

/-- `Command` (commands.py lines 12-16): a command name with its captured
args/kwargs (collapsed into one value of type `A`). -/
structure Command (A : Type) where
  name : String
  args : A
deriving Repr, DecidableEq

/-- A `CADService` instance viewed by the batch machinery: its attribute
table maps attribute names to callables acting on service state `St` with
args `A` and returning a result `R`.  `inspect.getattr_static` and `getattr`
consult the same table here (the model has no descriptors), and
`_invoke_static` (service.py lines 180-197) is plain application `f st args`. -/
structure ServiceModel (St R A : Type) where
  attrs : List (String × (St → A → R × St))

/-- `CADService._find_attribute` (service.py lines 199-222): prefer the
implementation method `_{name}`, else the exposed method `exposed_{name}`.
The source retries both names with `getattr` after `getattr_static`; in this
model the second pair of lookups returns the same answers, so the
fallthrough collapses to the two lookups. -/
def ServiceModel.find_attribute (svc : ServiceModel St R A) (name : String) :
    Option (St → A → R × St) :=
  match dictLookup svc.attrs ("_" ++ name) with
  | some attr => some attr
  | none => dictLookup svc.attrs ("exposed_" ++ name)

/-- The execution loop of `_execute_batch` (service.py lines 242-248): invoke
each resolved command in order, threading the service state and collecting
results in order. -/
def runResolved : List (Command A × (St → A → R × St)) → St → List R × St
  | [], st => ([], st)
  | (c, f) :: rest, st =>
    let step := f st c.args
    let next := runResolved rest step.2
    (step.1 :: next.1, next.2)

/-- `CADService._execute_batch` (service.py lines 224-248): first resolve
every command name, collecting the invalid ones and the resolved attributes;
if any name is invalid, raise `ValueError` listing the invalid names
(modelled as `.error` with the service state unchanged, since nothing has run
yet); otherwise execute the commands in order and return their results. -/
def ServiceModel.execute_batch (svc : ServiceModel St R A)
    (commands : List (Command A)) (st : St) :
    Except (List String) (List R) × St :=
  let resolved := commands.map fun c => (c, svc.find_attribute c.name)
  let invalid := (resolved.filter fun p => p.2.isNone).map fun p => p.1.name
  if invalid.isEmpty then
    let pairs := resolved.filterMap fun p => p.2.map fun f => (p.1, f)
    let run := runResolved pairs st
    (.ok run.1, run.2)
  else
    (.error invalid, st)

/-- `CADService.exposed_batch_commands` (service.py lines 258-262), iterable
branch: delegate to `_execute_batch`.  (The single-`Command` branch wraps the
argument in a one-element list and projects the first result.) -/
def ServiceModel.exposed_batch_commands (svc : ServiceModel St R A)
    (commands : List (Command A)) (st : St) :
    Except (List String) (List R) × St :=
  svc.execute_batch commands st

/-- Reference executor following the claim's words: resolve and run each
command one at a time in order, failing at the first unresolvable name.  Used
to compare `execute_batch`'s all-valid behaviour with plain in-order
execution. -/
def runCommandsSpec (svc : ServiceModel St R A) :
    List (Command A) → St → Option (List R × St)
  | [], st => some ([], st)
  | c :: rest, st =>
    match svc.find_attribute c.name with
    | none => none
    | some f =>
      let step := f st c.args
      match runCommandsSpec svc rest step.2 with
      | none => none
      | some (rs, st') => some (step.1 :: rs, st')

/-! ### Association-list lemmas -/

theorem dictLookup_keys_ne (d : List (String × β)) (k : String)
    (h : dictLookup d k = none) : ∀ p ∈ d, p.1 ≠ k := by
  induction d with
  | nil => intro p hp; cases hp
  | cons q rest ih =>
    intro p hp
    simp only [dictLookup] at h
    by_cases hq : q.1 = k
    · simp [hq] at h
    · cases hp with
      | head => exact hq
      | tail _ hp => exact ih (by simpa [hq] using h) p hp

theorem dictLookup_of_keys_ne (d : List (String × β)) (k : String)
    (h : ∀ p ∈ d, p.1 ≠ k) : dictLookup d k = none := by
  induction d with
  | nil => rfl
  | cons q rest ih =>
    simp only [dictLookup]
    rw [if_neg (h q (by simp))]
    exact ih fun p hp => h p (by simp [hp])

theorem dictLookup_append_fresh (d : List (String × β)) (k : String) (v : β)
    (h : dictLookup d k = none) : dictLookup (d ++ [(k, v)]) k = some v := by
  induction d with
  | nil => simp [dictLookup]
  | cons q rest ih =>
    simp only [dictLookup] at h ⊢
    by_cases hq : q.1 = k
    · simp [hq] at h
    · simpa [hq] using ih (by simpa [hq] using h)

theorem dictUpdate_of_fresh (d : List (String × β)) (k : String) (w : β)
    (h : dictLookup d k = none) : dictUpdate d k w = d := by
  induction d with
  | nil => rfl
  | cons q rest ih =>
    simp only [dictLookup] at h
    by_cases hq : q.1 = k
    · simp [hq] at h
    · simp only [dictUpdate, List.map] at ih ⊢
      rw [if_neg hq, ih (by simpa [hq] using h)]

theorem dictUpdate_append (d e : List (String × β)) (k : String) (w : β) :
    dictUpdate (d ++ e) k w = dictUpdate d k w ++ dictUpdate e k w := by
  simp [dictUpdate]

theorem dictUpdate_append_fresh (d : List (String × β)) (k : String) (v w : β)
    (h : dictLookup d k = none) :
    dictUpdate (d ++ [(k, v)]) k w = d ++ [(k, w)] := by
  rw [dictUpdate_append, dictUpdate_of_fresh d k w h]
  simp [dictUpdate]

theorem dictPop_of_fresh (d : List (String × β)) (k : String)
    (h : dictLookup d k = none) : dictPop d k = d := by
  induction d with
  | nil => rfl
  | cons q rest ih =>
    simp only [dictLookup] at h
    by_cases hq : q.1 = k
    · simp [hq] at h
    · simp only [dictPop]
      rw [if_neg hq, ih (by simpa [hq] using h)]

theorem dictPop_append_self (d : List (String × β)) (k : String) (v : β) :
    dictPop (d ++ [(k, v)]) k = dictPop d k := by
  induction d with
  | nil => simp [dictPop]
  | cons q rest ih =>
    by_cases hq : q.1 = k
    · simp only [List.cons_append, dictPop]
      rw [if_pos hq, if_pos hq]
      simpa using ih
    · simp only [List.cons_append, dictPop]
      rw [if_neg hq, if_neg hq]
      simpa using congrArg (q :: ·) ih

theorem dictPop_dictUpdate (d : List (String × β)) (k : String) (v : β) :
    dictPop (dictUpdate d k v) k = dictPop d k := by
  induction d with
  | nil => rfl
  | cons q rest ih =>
    by_cases hq : q.1 = k
    · simp only [dictUpdate, List.map, dictPop] at ih ⊢
      rw [if_pos hq, if_pos hq]
      simpa [dictUpdate] using ih
    · simp only [dictUpdate, List.map, dictPop] at ih ⊢
      rw [if_neg hq, if_neg hq, if_neg hq]
      simpa [dictUpdate] using congrArg (q :: ·) ih

theorem dictLookup_dictPop_self (d : List (String × β)) (k : String) :
    dictLookup (dictPop d k) k = none := by
  induction d with
  | nil => rfl
  | cons q rest ih =>
    by_cases hq : q.1 = k
    · simp only [dictPop]
      rw [if_pos hq]
      exact ih
    · simp only [dictPop]
      rw [if_neg hq]
      simpa [dictLookup, hq] using ih

theorem dictLookup_dictPop_ne (d : List (String × β)) (k k' : String)
    (h : k' ≠ k) : dictLookup (dictPop d k) k' = dictLookup d k' := by
  induction d with
  | nil => rfl
  | cons q rest ih =>
    by_cases hq : q.1 = k
    · have hq' : q.1 ≠ k' := by rw [hq]; exact fun heq => h heq.symm
      simp only [dictPop]
      rw [if_pos hq]
      simpa [dictLookup, hq'] using ih
    · simp only [dictPop]
      rw [if_neg hq]
      by_cases hq' : q.1 = k'
      · simp [dictLookup, hq']
      · simpa [dictLookup, hq'] using ih

/-! ### Probe-loop lemmas -/

theorem probeIndex_spec (id : String) (d : List (String × β)) :
    ∀ fuel start idx, probeIndex id d fuel start = some idx →
      dictLookup d (mkKey id idx) = none ∧
      start ≤ idx ∧
      ∀ m, start ≤ m → m < idx → (dictLookup d (mkKey id m)).isSome := by
  intro fuel
  induction fuel with
  | zero => intro start idx h; cases h
  | succ fuel ih =>
    intro start idx h
    simp only [probeIndex] at h
    by_cases hk : (dictLookup d (mkKey id start)).isSome
    · rw [if_pos hk] at h
      obtain ⟨hfree, hle, hall⟩ := ih (start + 1) idx h
      refine ⟨hfree, by omega, fun m hm hm' => ?_⟩
      rcases Nat.lt_or_ge m (start + 1) with hm2 | hm2
      · have hms : m = start := by omega
        rw [hms]; exact hk
      · exact hall m hm2 hm'
    · rw [if_neg hk] at h
      injection h with h
      subst h
      refine ⟨?_, Nat.le_refl _, fun m hm hm' => by omega⟩
      cases hd : dictLookup d (mkKey id start) with
      | none => rfl
      | some v => exact absurd (by simp [hd]) hk

/-! ### Dispatcher characterisation lemmas -/

/-- A successful `dispatchStart` allocates a fresh key, appends the future
(args captured, wrapper callback attached) at that key, and fires the event;
nothing else changes. -/
theorem dispatchStart_spec (id : String) (args : A) (cb : Option Nat)
    (s : DispatchState E T A) (key : String) (s1 : DispatchState E T A)
    (h : dispatchStart id args cb s = some (key, s1)) :
    dictLookup s.futures key = none ∧
    s1.futures = s.futures ++
      [(key, { args := args, callback := some ⟨key, cb⟩ })] ∧
    s1.delivered = s.delivered ∧
    s1.firedEvents = s.firedEvents ++ [(id, key)] := by
  simp only [dispatchStart] at h
  cases hp : probeIndex id s.futures (s.futures.length + 1) 0 with
  | none => rw [hp] at h; cases h
  | some index =>
    rw [hp] at h
    have hfresh := (probeIndex_spec id s.futures _ _ _ hp).1
    simp only [Option.some.injEq, Prod.mk.injEq] at h
    obtain ⟨hkey, hstate⟩ := h
    subst hkey
    subst hstate
    refine ⟨hfresh, ?_, rfl, rfl⟩
    exact dictUpdate_append_fresh s.futures _ _ _ hfresh

/-- `notify` on a registered future whose callback is the dispatcher wrapper
for its own key: the operation runs on the stored args, the result or the
raised error is stored on the future, the caller callback (if any) receives
the outcome, and the key is popped from the registry. -/
theorem notify_spec (handler : A → Except E (Option T)) (key : String)
    (s : DispatchState E T A) (f0 : DFuture E T A) (cb : Option Nat)
    (hl : dictLookup s.futures key = some f0)
    (hcb : f0.callback = some ⟨key, cb⟩) :
    ∃ fut s',
      notify handler key s = some (fut, s') ∧
      s'.futures = dictPop s.futures key ∧
      s'.firedEvents = s.firedEvents ∧
      (∀ v, handler f0.args = .ok v →
        fut = { f0 with result := v, eventSet := true, callback := none }) ∧
      (∀ e, handler f0.args = .error e →
        fut = { f0 with exception := some e, eventSet := true }) ∧
      (cb = none → s'.delivered = s.delivered) ∧
      (∀ cid v, cb = some cid → handler f0.args = .ok v →
        s'.delivered = s.delivered ++ [(cid, Sum.inl v)]) ∧
      (∀ cid e, cb = some cid → handler f0.args = .error e →
        s'.delivered = s.delivered ++ [(cid, Sum.inr e)]) := by
  cases hop : handler f0.args with
  | ok v =>
    refine ⟨{ f0 with result := v, eventSet := true, callback := none },
      { futures := dictPop s.futures key, firedEvents := s.firedEvents,
        delivered := s.delivered ++
          cb.elim [] (fun cid => [(cid, Sum.inl v)]) },
      ?_, rfl, rfl, ?_, ?_, ?_, ?_, ?_⟩
    · simp only [notify, hl, hop, FusionFuture.set_result, hcb,
        runWrapperCallback]
      cases cb <;> simp [dictPop_dictUpdate]
    · intro v' hv
      injection hv with hv
      rw [hv]
    · intro e he
      exact Except.noConfusion he
    · intro hcn
      rw [hcn]
      simp
    · intro cid v' hcid hv
      injection hv with hv
      subst hv
      rw [hcid]
      simp
    · intro cid e hcid he
      exact Except.noConfusion he
  | error e =>
    refine ⟨{ f0 with exception := some e, eventSet := true },
      { futures := dictPop s.futures key, firedEvents := s.firedEvents,
        delivered := s.delivered ++
          cb.elim [] (fun cid => [(cid, Sum.inr e)]) },
      ?_, rfl, rfl, ?_, ?_, ?_, ?_, ?_⟩
    · simp only [notify, hl, hop, FusionFuture.set_exception, hcb,
        runWrapperCallback]
      cases cb <;> simp [dictPop_dictUpdate]
    · intro v hv
      exact Except.noConfusion hv
    · intro e' he
      injection he with he
      rw [he]
    · intro hcn
      rw [hcn]
      simp
    · intro cid v hcid hv
      exact Except.noConfusion hv
    · intro cid e' hcid he
      injection he with he
      subst he
      rw [hcid]
      simp

/-- One full dispatched round leaves the registry exactly as it was, returns
the operation's outcome in synchronous mode, and returns `None` while
delivering the outcome to the caller callback in asynchronous mode. -/
theorem dispatchRound_spec (handler : A → Except E (Option T)) (id : String)
    (args : A) (cb : Option Nat) (s : DispatchState E T A)
    (ret : Option (Except (GetResultError E) (Option T)))
    (s' : DispatchState E T A)
    (h : dispatchRound handler id args cb s = some (ret, s')) :
    s'.futures = s.futures ∧
    (cb = none →
      ret = some (match handler args with
        | .ok v => .ok v
        | .error e => .error (.exn e)) ∧
      s'.delivered = s.delivered) ∧
    (∀ cid, cb = some cid →
      ret = none ∧
      s'.delivered = s.delivered ++
        [(cid, match handler args with
               | .ok v => Sum.inl v
               | .error e => Sum.inr e)]) := by
  cases hds : dispatchStart id args cb s with
  | none =>
    simp only [dispatchRound, hds] at h
    exact Option.noConfusion h
  | some p =>
    obtain ⟨key, s1⟩ := p
    obtain ⟨hfresh, hfut, hdel, _⟩ := dispatchStart_spec id args cb s key s1 hds
    have hl : dictLookup s1.futures key =
        some { args := args, callback := some ⟨key, cb⟩ } := by
      rw [hfut]; exact dictLookup_append_fresh s.futures key _ hfresh
    obtain ⟨fut, s2, hn, hpop, _, hok, herr, hdn, hds', hde⟩ :=
      notify_spec handler key s1 _ cb hl rfl
    dsimp only at hok herr hds' hde
    simp only [dispatchRound, hds, hn] at h
    have hreg : s2.futures = s.futures := by
      rw [hpop, hfut, dictPop_append_self, dictPop_of_fresh s.futures key hfresh]
    cases hop : handler args with
    | ok v =>
      cases cb with
      | none =>
        simp only [Option.some.injEq, Prod.mk.injEq] at h
        obtain ⟨hret, hs⟩ := h
        subst hs
        refine ⟨hreg, ?_, ?_⟩
        · intro _
          constructor
          · rw [← hret, hok v hop]
            simp [FusionFuture.get_result]
          · rw [hdn rfl, hdel]
        · intro cid hcid
          exact Option.noConfusion hcid
      | some cid =>
        simp only [Option.some.injEq, Prod.mk.injEq] at h
        obtain ⟨hret, hs⟩ := h
        subst hs
        refine ⟨hreg, ?_, ?_⟩
        · intro hc
          exact Option.noConfusion hc
        · intro cid' hcid
          injection hcid with hcid
          subst hcid
          refine ⟨hret.symm, ?_⟩
          rw [hds' cid v rfl hop, hdel]
    | error e =>
      cases cb with
      | none =>
        simp only [Option.some.injEq, Prod.mk.injEq] at h
        obtain ⟨hret, hs⟩ := h
        subst hs
        refine ⟨hreg, ?_, ?_⟩
        · intro _
          constructor
          · rw [← hret, herr e hop]
            simp [FusionFuture.get_result]
          · rw [hdn rfl, hdel]
        · intro cid hcid
          exact Option.noConfusion hcid
      | some cid =>
        simp only [Option.some.injEq, Prod.mk.injEq] at h
        obtain ⟨hret, hs⟩ := h
        subst hs
        refine ⟨hreg, ?_, ?_⟩
        · intro hc
          exact Option.noConfusion hc
        · intro cid' hcid
          injection hcid with hcid
          subst hcid
          refine ⟨hret.symm, ?_⟩
          rw [hde cid e rfl hop, hdel]

/-- Running a batch of dispatched calls to completion restores the registry
to its initial contents. -/
theorem runCalls_futures (handler : A → Except E (Option T))
    (calls : List (String × A × Option Nat)) :
    ∀ s s' : DispatchState E T A, runCalls handler calls s = some s' →
      s'.futures = s.futures := by
  induction calls with
  | nil =>
    intro s s' h
    injection h with h
    rw [← h]
  | cons c rest ih =>
    obtain ⟨id, args, cb⟩ := c
    intro s s' h
    simp only [runCalls] at h
    cases hd : dispatchRound handler id args cb s with
    | none => rw [hd] at h; cases h
    | some p =>
      obtain ⟨ret, s1⟩ := p
      rw [hd] at h
      have h1 := (dispatchRound_spec handler id args cb s ret s1 hd).1
      rw [ih s1 s' h, h1]

/-! ### Claim theorems: the dispatcher -/

/-- Claim C1: for every dispatched operation, if the caller supplies no
callback, dispatch blocks until the operation completes and returns the
operation's result value, or re-raises the operation's error; if the caller
supplies a callback, dispatch returns `None` immediately and the result or
error is later delivered to that callback. -/
theorem dispatcher_sync_and_async_semantics
    (handler : A → Except E (Option T)) (id : String) (args : A)
    (cb : Option Nat) (s : DispatchState E T A)
    (ret : Option (Except (GetResultError E) (Option T)))
    (s' : DispatchState E T A)
    (h : dispatchRound handler id args cb s = some (ret, s')) :
    (cb = none →
      ret = some (match handler args with
        | .ok v => .ok v
        | .error e => .error (.exn e))) ∧
    (∀ cid, cb = some cid →
      ret = none ∧
      s'.delivered = s.delivered ++
        [(cid, match handler args with
               | .ok v => Sum.inl v
               | .error e => Sum.inr e)]) := by
  obtain ⟨_, hsync, hasync⟩ := dispatchRound_spec handler id args cb s ret s' h
  exact ⟨fun hc => (hsync hc).1, hasync⟩

theorem dispatcher_sync_and_async_semantics_witness :
    ((some (Except.ok (some 4)) :
        Option (Except (GetResultError Nat) (Option Nat))) =
      some (Except.ok (some 4))) ∧
    ((none : Option (Except (GetResultError Nat) (Option Nat))) = none ∧
      ([((5 : Nat), (Sum.inl (some 4) : Option Nat ⊕ Nat))] =
        [] ++ [(5, Sum.inl (some 4))])) := by
  constructor
  · exact (dispatcher_sync_and_async_semantics
      (fun a => (Except.ok (some (a + 1)) : Except Nat (Option Nat))) "op" 3 none
      { futures := [], firedEvents := [], delivered := [] }
      (some (Except.ok (some 4)))
      { futures := [], firedEvents := [("op", "op#0")], delivered := [] }
      (by decide)).1 rfl
  · exact (dispatcher_sync_and_async_semantics
      (fun a => (Except.ok (some (a + 1)) : Except Nat (Option Nat))) "op" 3 (some 5)
      { futures := [], firedEvents := [], delivered := [] }
      none
      { futures := [], firedEvents := [("op", "op#0")],
        delivered := [(5, Sum.inl (some 4))] }
      (by decide)).2 5 rfl

/-- Claim C2: the dispatch key is chosen by probing keys "{id}#{n}" for
n = 0, 1, 2, ... and taking the first key not in the pending registry, so a
pending future is never overwritten; in particular, with "op#0" and "op#1"
pending, a third dispatch of "op" allocates "op#2". -/
theorem dispatch_key_probing :
    (∀ (β : Type) (id : String) (d : List (String × β)) (fuel start idx : Nat),
      probeIndex id d fuel start = some idx →
        dictLookup d (mkKey id idx) = none ∧
        ∀ m, start ≤ m → m < idx → (dictLookup d (mkKey id m)).isSome) ∧
    ((dispatchStart "op" 0 none
        { futures := [("op#0", { args := 0 }), ("op#1", { args := 1 })] } :
        Option (String × DispatchState Nat Nat Nat)).map Prod.fst =
      some "op#2") := by
  constructor
  · intro β id d fuel start idx h
    exact ⟨(probeIndex_spec id d fuel start idx h).1,
      (probeIndex_spec id d fuel start idx h).2.2⟩
  · decide

theorem dispatch_key_probing_witness :
    dictLookup [("op#0", (0 : Nat)), ("op#1", 1)] (mkKey "op" 2) = none :=
  (dispatch_key_probing.1 Nat "op" [("op#0", 0), ("op#1", 1)] 3 0 2
    (by decide)).1

/-- Claim C3: when a dispatched call's future completes, its key is removed
from the pending registry (other keys untouched), and after a batch of
dispatched calls all run to completion from an empty registry, the registry
is empty again. -/
theorem registry_no_leaks (handler : A → Except E (Option T)) :
    (∀ (key : String) (s : DispatchState E T A) (f0 : DFuture E T A)
      (cb : Option Nat) (fut : DFuture E T A) (s' : DispatchState E T A),
      dictLookup s.futures key = some f0 →
      f0.callback = some ⟨key, cb⟩ →
      notify handler key s = some (fut, s') →
      dictLookup s'.futures key = none ∧
      ∀ k, k ≠ key → dictLookup s'.futures k = dictLookup s.futures k) ∧
    (∀ (calls : List (String × A × Option Nat)) (s' : DispatchState E T A),
      runCalls handler calls {} = some s' → s'.futures = []) := by
  constructor
  · intro key s f0 cb fut s' hl hcb hn
    obtain ⟨fut0, s0, hn0, hpop, _⟩ := notify_spec handler key s f0 cb hl hcb
    rw [hn0] at hn
    injection hn with hn
    have hs' : s' = s0 := (congrArg Prod.snd hn).symm
    rw [hs', hpop]
    exact ⟨dictLookup_dictPop_self s.futures key,
      fun k hk => dictLookup_dictPop_ne s.futures key k hk⟩
  · intro calls s' h
    rw [runCalls_futures handler calls {} s' h]

theorem registry_no_leaks_witness :
    (dictLookup ([] : List (String × DFuture Nat Nat Nat)) "op#0" = none) ∧
    (([] : List (String × DFuture Nat Nat Nat)) = []) := by
  constructor
  · exact ((registry_no_leaks (fun a => (Except.ok (some a) : Except Nat (Option Nat)))).1 "op#0"
      { futures := [("op#0",
          { args := 2, callback := some ⟨"op#0", none⟩ })] }
      { args := 2, callback := some ⟨"op#0", none⟩ } none
      { result := some 2, eventSet := true, args := 2 }
      { futures := [], firedEvents := [], delivered := [] }
      (by decide) rfl (by decide)).1
  · exact (registry_no_leaks (fun a => (Except.ok (some a) : Except Nat (Option Nat)))).2
      [("op", 2, none), ("op", 3, some 5)]
      { futures := [], firedEvents := [("op", "op#0"), ("op", "op#0")],
        delivered := [(5, Sum.inl (some 3))] }
      (by decide)

/-- Claim C4: when the privileged-thread handler is signaled with a token
registered in the pending registry, it invokes the real operation with the
future's stored args, sets the future's result on success or its exception on
any raised error, and itself never raises (it returns normally). -/
theorem notify_captures_outcome (handler : A → Except E (Option T))
    (key : String) (s : DispatchState E T A) (f0 : DFuture E T A)
    (hl : dictLookup s.futures key = some f0) :
    ∃ fut s', notify handler key s = some (fut, s') ∧
      fut.args = f0.args ∧
      fut.eventSet = true ∧
      (∀ v, handler f0.args = .ok v →
        fut.result = v ∧ fut.exception = f0.exception) ∧
      (∀ e, handler f0.args = .error e →
        fut.exception = some e ∧ fut.result = f0.result) := by
  simp only [notify, hl]
  cases hop : handler f0.args with
  | ok v =>
    simp only [FusionFuture.set_result]
    cases hcbv : f0.callback with
    | none =>
      refine ⟨_, _, rfl, rfl, rfl, ?_, ?_⟩
      · intro v' hv
        injection hv with hv
        exact ⟨by rw [hv], rfl⟩
      · intro e he
        exact Except.noConfusion he
    | some c =>
      refine ⟨_, _, rfl, rfl, rfl, ?_, ?_⟩
      · intro v' hv
        injection hv with hv
        exact ⟨by rw [hv], rfl⟩
      · intro e he
        exact Except.noConfusion he
  | error e =>
    simp only [FusionFuture.set_exception]
    cases hcbv : f0.callback with
    | none =>
      refine ⟨_, _, rfl, rfl, rfl, ?_, ?_⟩
      · intro v hv
        exact Except.noConfusion hv
      · intro e' he
        injection he with he
        exact ⟨by rw [he], rfl⟩
    | some c =>
      refine ⟨_, _, rfl, rfl, rfl, ?_, ?_⟩
      · intro v hv
        exact Except.noConfusion hv
      · intro e' he
        injection he with he
        exact ⟨by rw [he], rfl⟩

theorem notify_captures_outcome_witness :
    ∃ (fut : DFuture Nat Nat Nat) (s' : DispatchState Nat Nat Nat),
      notify (fun _ => Except.error 9) "op#0"
        { futures := [("op#0", { args := 2 })] } = some (fut, s') ∧
      fut.args = 2 ∧
      fut.eventSet = true ∧
      (∀ v, Except.error 9 = Except.ok v →
        fut.result = v ∧ fut.exception = none) ∧
      (∀ e, (Except.error 9 : Except Nat (Option Nat)) = Except.error e →
        fut.exception = some e ∧ fut.result = none) :=
  notify_captures_outcome (fun _ => Except.error 9) "op#0"
    { futures := [("op#0", { args := 2 })] } { args := 2 } rfl

/-! ### Claim theorems: the Future -/

/-- Claim C5 counterexample: the claim says `set_exception` invokes the
completion callback if present and then clears it, as `set_result` does; in
the source `set_exception` leaves the callback stored (fusion.py lines 76-81
have no `self.callback = None`, contrast line 74). -/
theorem set_exception_clears_callback_counterexample :
    ((({ args := 0, callback := some 7 } : FusionFuture Nat Nat Nat Nat
      ).set_exception 3).1.callback = some 7) ∧
    ((({ args := 0, callback := some 7 } : FusionFuture Nat Nat Nat Nat
      ).set_result (some 1)).1.callback = none) := by
  decide

/-- Claim C5 (amended): `set_exception` stores the error, marks the future
complete and invokes the completion callback if present, but unlike
`set_result` it does not clear the callback; the result slot is untouched, so
on a not-yet-completed future error and result remain mutually exclusive. -/
theorem set_exception_behaviour (f : FusionFuture E T C A) (e : E) :
    ((f.set_exception e).1.exception = some e) ∧
    ((f.set_exception e).1.eventSet = true) ∧
    ((f.set_exception e).1.result = f.result) ∧
    ((f.set_exception e).1.callback = f.callback) ∧
    (∀ c, f.callback = some c → (f.set_exception e).2 = some (c, Sum.inr e)) ∧
    (f.callback = none → (f.set_exception e).2 = none) := by
  cases hc : f.callback with
  | none => simp [FusionFuture.set_exception, hc]
  | some c0 =>
    simp only [FusionFuture.set_exception, hc]
    refine ⟨by simp, by simp, by simp, by simp, ?_, ?_⟩
    · intro c h
      injection h with h
      rw [h]
    · intro h
      exact Option.noConfusion h

theorem set_exception_behaviour_witness :
    ((({ args := 0, callback := some 7 } : FusionFuture Nat Nat Nat Nat
      ).set_exception 3).2 = some (7, Sum.inr 3)) :=
  (set_exception_behaviour
    ({ args := 0, callback := some 7 } : FusionFuture Nat Nat Nat Nat)
    3).2.2.2.2.1 7 rfl

/-- Claim C6 counterexample: a second `set_result` on an already-completed
future is not detected — it succeeds and silently replaces the stored value —
and a `set_exception` after `set_result` leaves both result and error set. -/
theorem recompletion_undetected_counterexample :
    (((({ args := 0 } : FusionFuture Nat Nat Nat Nat
      ).set_result (some 1)).1.set_result (some 2)).1.result = some 2) ∧
    (((({ args := 0 } : FusionFuture Nat Nat Nat Nat
      ).set_result (some 1)).1.set_exception 9).1.result = some 1) ∧
    (((({ args := 0 } : FusionFuture Nat Nat Nat Nat
      ).set_result (some 1)).1.set_exception 9).1.exception = some 9) := by
  decide

/-- Claim C6 (amended): when a fresh future is completed by a single call,
exactly one of result/error is stored and the callback fires at most once
(`set_result` clears it, so a later re-completion call fires nothing); but a
completion call on an already-completed future is not detected — it succeeds
and silently replaces the stored value. -/
theorem future_write_once_amended (f : FusionFuture E T C A) (v w : Option T)
    (e : E) (he : f.exception = none) :
    ((f.set_result v).1.exception = none) ∧
    ((f.set_exception e).1.result = f.result) ∧
    ((f.set_result v).1.callback = none) ∧
    (((f.set_result v).1.set_result w).2 = none) ∧
    (((f.set_result v).1.set_result w).1.result = w) := by
  cases hc : f.callback <;>
    simp [FusionFuture.set_result, FusionFuture.set_exception, hc, he]

theorem future_write_once_amended_witness :
    ((((({ args := 0 } : FusionFuture Nat Nat Nat Nat
      ).set_result (some 1)).1).set_result (some 2)).1.result = some 2) :=
  (future_write_once_amended ({ args := 0 } : FusionFuture Nat Nat Nat Nat)
    (some 1) (some 2) 9 rfl).2.2.2.2

/-- Claim C7: `get_result` on a not-yet-completed future signals the timeout
(raises `TimeoutError`) and mutates nothing — the source only reads — so a
call after the future completes re-raises the stored error if it completed
with error and otherwise returns the stored value. -/
theorem get_result_timeout_then_completion (f : FusionFuture E T C A)
    (v : Option T) (e : E) (hincomplete : f.eventSet = false)
    (hexc : f.exception = none) :
    f.get_result = .error .timedOut ∧
    ((f.set_result v).1).get_result = .ok v ∧
    ((f.set_exception e).1).get_result = .error (.exn e) := by
  refine ⟨?_, ?_, ?_⟩
  · simp [FusionFuture.get_result, hincomplete]
  · cases hc : f.callback <;>
      simp [FusionFuture.get_result, FusionFuture.set_result, hc, hexc]
  · cases hc : f.callback <;>
      simp [FusionFuture.get_result, FusionFuture.set_exception, hc]

theorem get_result_timeout_then_completion_witness :
    (({ args := 0 } : FusionFuture Nat Nat Nat Nat).get_result =
      .error .timedOut) ∧
    ((({ args := 0 } : FusionFuture Nat Nat Nat Nat).set_result (some 5)
      ).1.get_result = .ok (some 5)) ∧
    ((({ args := 0 } : FusionFuture Nat Nat Nat Nat).set_exception 9
      ).1.get_result = .error (.exn 9)) :=
  get_result_timeout_then_completion
    ({ args := 0 } : FusionFuture Nat Nat Nat Nat) (some 5) 9 rfl rfl

/-- Claim C9 counterexample: a future completed without error whose stored
result value is `None` has `has_result = false`, because `has_result`
requires `self._result is not None` (fusion.py line 88). -/
theorem has_result_none_counterexample :
    ((({ args := 0 } : FusionFuture Nat Nat Nat Nat).set_result none
      ).1.completed = true) ∧
    ((({ args := 0 } : FusionFuture Nat Nat Nat Nat).set_result none
      ).1.exception = none) ∧
    ((({ args := 0 } : FusionFuture Nat Nat Nat Nat).set_result none
      ).1.has_result = false) := by
  decide

/-- Claim C9 (amended): `has_result` is true iff the future is complete and
the stored result value is non-None — a successful operation whose result is
`None` leaves `has_result` false; `has_exception` is true iff the future is
complete and an error is stored. -/
theorem has_result_characterisation (f : FusionFuture E T C A) (v : T)
    (w : Option T) (e : E) (hexc : f.exception = none) :
    ((f.set_result w).1.completed = true) ∧
    ((f.set_result (some v)).1.has_result = true) ∧
    ((f.set_result none).1.has_result = false) ∧
    ((f.set_result w).1.has_exception = false) ∧
    ((f.set_exception e).1.has_exception = true) := by
  cases hc : f.callback <;>
    simp [FusionFuture.set_result, FusionFuture.set_exception,
      FusionFuture.has_result, FusionFuture.has_exception,
      FusionFuture.completed, hc, hexc]

theorem has_result_characterisation_witness :
    ((({ args := 0 } : FusionFuture Nat Nat Nat Nat).set_result none
      ).1.has_result = false) :=
  (has_result_characterisation ({ args := 0 } : FusionFuture Nat Nat Nat Nat)
    1 none 9 rfl).2.2.1

/-! ### Claim theorems: event registration -/

theorem registerCustomEvent_some (h : HostState) (id : String) (h1 : HostState)
    (hr : registerCustomEvent h id = some h1) :
    h1.registered = h.registered ++ [id] := by
  by_cases hm : id ∈ h.registered
  · simp [registerCustomEvent, hm] at hr
  · simp only [registerCustomEvent, if_neg hm] at hr
    injection hr with hr
    rw [← hr]

/-- A batch that registers successfully appends exactly its ids to the host
state, in order. -/
theorem register_events_success (p : List String) :
    ∀ (h h1 : HostState) (evs : List String),
      register_events p h = (h1, some evs) →
      h1.registered = h.registered ++ p := by
  induction p with
  | nil =>
    intro h h1 evs hp
    simp only [register_events, Prod.mk.injEq] at hp
    rw [← hp.1]
    simp
  | cons id rest ih =>
    intro h h1 evs hp
    cases hreg : registerCustomEvent h id with
    | none =>
      simp [register_events, hreg] at hp
    | some hnext =>
      cases hrec : register_events rest hnext with
      | mk h2 ores =>
        cases ores with
        | none => simp [register_events, hreg, hrec] at hp
        | some evs' =>
          simp only [register_events, hreg, hrec, Prod.mk.injEq] at hp
          rw [← hp.1, ih hnext h2 evs' hrec,
            registerCustomEvent_some h id hnext hreg]
          simp

/-- Appending more ids after a successfully registering prefix continues from
the prefix's host state; a failure in the suffix propagates unchanged. -/
theorem register_events_append (p l : List String) :
    ∀ (h h1 : HostState) (evs : List String),
      register_events p h = (h1, some evs) →
      register_events (p ++ l) h =
        ((register_events l h1).1,
          (register_events l h1).2.map (fun more => evs ++ more)) := by
  induction p with
  | nil =>
    intro h h1 evs hp
    simp only [register_events, Prod.mk.injEq, Option.some.injEq] at hp
    obtain ⟨hh, hevs⟩ := hp
    subst hh
    subst hevs
    simp only [List.nil_append]
    cases hl : register_events l h with
    | mk h2 ores => cases ores <;> simp
  | cons id rest ih =>
    intro h h1 evs hp
    cases hreg : registerCustomEvent h id with
    | none =>
      simp [register_events, hreg] at hp
    | some hnext =>
      cases hrec : register_events rest hnext with
      | mk h2 ores =>
        cases ores with
        | none => simp [register_events, hreg, hrec] at hp
        | some evs' =>
          simp only [register_events, hreg, hrec, Prod.mk.injEq,
            Option.some.injEq] at hp
          obtain ⟨hh, hevs⟩ := hp
          subst hh
          subst hevs
          simp only [List.cons_append, register_events, hreg]
          cases hl : register_events l h2 with
          | mk h3 ores3 =>
            cases ores3 <;> simp [ih hnext h2 evs' hrec, hl]

/-- Claim C8 counterexample: with event ids ["a", "b"] and "b" already
registered with the host, "a" registers and then "b" fails; the failure
propagates while "a" remains registered — the batch is not rolled back as the
claim requires. -/
theorem register_events_rollback_counterexample :
    ((register_events ["a", "b"] { registered := ["b"] }).2 = none) ∧
    ("a" ∈ (register_events ["a", "b"] { registered := ["b"] }).1.registered) := by
  decide

/-- Claim C8 (amended): if registering an event fails, session startup aborts
with the error propagating immediately; the events of the same batch that
were registered before the failure remain registered — no rollback occurs. -/
theorem register_events_failure_no_rollback (p rest : List String)
    (dup : String) (h h1 : HostState) (evs : List String)
    (hp : register_events p h = (h1, some evs))
    (hdup : registerCustomEvent h1 dup = none) :
    register_events (p ++ dup :: rest) h = (h1, none) ∧
    h1.registered = h.registered ++ p := by
  refine ⟨?_, register_events_success p h h1 evs hp⟩
  rw [register_events_append p (dup :: rest) h h1 evs hp]
  simp [register_events, hdup]

theorem register_events_failure_no_rollback_witness :
    (register_events ["a", "b"] { registered := ["b"] } =
      ({ registered := ["b", "a"] }, none)) ∧
    (["b", "a"] = ["b"] ++ ["a"]) :=
  register_events_failure_no_rollback ["a"] [] "b"
    { registered := ["b"] } { registered := ["b", "a"] } ["a"]
    (by decide) (by decide)

/-! ### Claim theorems: batch commands -/

theorem isEmpty_false_of_mem {α : Type} {l : List α} {a : α} (h : a ∈ l) :
    l.isEmpty = false := by
  cases l with
  | nil => cases h
  | cons x xs => rfl

/-- The invalid-name list built by `_execute_batch` is exactly the names of
the commands whose lookup fails, in command order. -/
theorem execute_batch_invalid_names (svc : ServiceModel St R A)
    (commands : List (Command A)) :
    (((commands.map fun c => (c, svc.find_attribute c.name)).filter
      fun p => p.2.isNone).map fun p => p.1.name) =
    (commands.filter fun c => (svc.find_attribute c.name).isNone).map
      Command.name := by
  induction commands with
  | nil => rfl
  | cons c rest ih =>
    by_cases hc : (svc.find_attribute c.name).isNone <;>
      simp [List.filter_cons, hc, ih]

/-- When every command resolves, the validation filter is empty. -/
theorem resolved_filter_nil (svc : ServiceModel St R A) :
    ∀ commands : List (Command A),
      (∀ c ∈ commands, (svc.find_attribute c.name).isSome) →
      ((commands.map fun c => (c, svc.find_attribute c.name)).filter
        fun p => p.2.isNone) = [] := by
  intro commands
  induction commands with
  | nil => intro _; rfl
  | cons c rest ih =>
    intro hall
    obtain ⟨f, hf⟩ := Option.isSome_iff_exists.mp (hall c (by simp))
    simp [List.filter_cons, hf, ih (fun c' h' => hall c' (by simp [h']))]

/-- When every command resolves, the in-order reference executor succeeds and
computes exactly the pair-list execution `_execute_batch` performs. -/
theorem runCommandsSpec_resolved (svc : ServiceModel St R A) :
    ∀ commands : List (Command A), ∀ st : St,
      (∀ c ∈ commands, (svc.find_attribute c.name).isSome) →
      runCommandsSpec svc commands st =
        some (runResolved ((commands.map fun c =>
          (c, svc.find_attribute c.name)).filterMap
            fun p => p.2.map fun f => (p.1, f)) st) := by
  intro commands
  induction commands with
  | nil => intro st _; rfl
  | cons c rest ih =>
    intro st hall
    obtain ⟨f, hf⟩ := Option.isSome_iff_exists.mp (hall c (by simp))
    have hrest : ∀ c' ∈ rest, (svc.find_attribute c'.name).isSome :=
      fun c' h' => hall c' (by simp [h'])
    simp only [runCommandsSpec, hf, List.map_cons, List.filterMap_cons,
      Option.map_some', runResolved]
    rw [ih ((f st c.args).2) hrest]

/-- Claim C10: `exposed_batch_commands` resolves every command name before
executing anything: if any command's name matches neither an implementation
method `_{name}` nor an exposed method `exposed_{name}`, it raises
`ValueError` listing exactly the invalid command names and executes none of
the commands (service state unchanged); otherwise it executes the commands in
order and returns their results in the same order (as computed by the
in-order reference executor `runCommandsSpec`). -/
theorem batch_commands_validate_then_run (svc : ServiceModel St R A)
    (commands : List (Command A)) (st : St) :
    ((∃ c ∈ commands, svc.find_attribute c.name = none) →
      (svc.exposed_batch_commands commands st).2 = st ∧
      (svc.exposed_batch_commands commands st).1 = .error
        ((commands.filter fun c => (svc.find_attribute c.name).isNone).map
          Command.name)) ∧
    ((∀ c ∈ commands, (svc.find_attribute c.name).isSome) →
      (runCommandsSpec svc commands st).isSome = true ∧
      ∀ rs st', runCommandsSpec svc commands st = some (rs, st') →
        svc.exposed_batch_commands commands st = (.ok rs, st')) := by
  constructor
  · rintro ⟨c, hcm, hcn⟩
    have hmem : c.name ∈ (commands.filter
        fun c => (svc.find_attribute c.name).isNone).map Command.name :=
      List.mem_map_of_mem _ (List.mem_filter.mpr ⟨hcm, by simp [hcn]⟩)
    have hfalse : ((commands.map fun c =>
        (c, svc.find_attribute c.name)).filter
          fun p => p.2.isNone).map (fun p => p.1.name) ≠ [] := by
      rw [execute_batch_invalid_names]
      intro hnil
      rw [hnil] at hmem
      cases hmem
    simp only [ServiceModel.exposed_batch_commands, ServiceModel.execute_batch]
    rw [if_neg (by simpa using hfalse)]
    exact ⟨rfl, by rw [execute_batch_invalid_names]⟩
  · intro hall
    have hspec := runCommandsSpec_resolved svc commands st hall
    constructor
    · rw [hspec]
      rfl
    · intro rs st' hrs
      rw [hspec] at hrs
      injection hrs with hrs
      simp only [ServiceModel.exposed_batch_commands, ServiceModel.execute_batch]
      rw [if_pos (by simp [resolved_filter_nil svc commands hall])]
      rw [hrs]

/-- A concrete two-attribute service used to witness the batch theorem: the
implementation method `_go` adds its argument to the state and returns the
new value. -/
def demoService : ServiceModel Nat Nat Nat :=
  ⟨[("_go", fun st a => (st + a, st + a))]⟩

theorem batch_commands_validate_then_run_witness :
    ((demoService.exposed_batch_commands [⟨"go", 2⟩, ⟨"missing", 0⟩] 1).2 = 1 ∧
      (demoService.exposed_batch_commands [⟨"go", 2⟩, ⟨"missing", 0⟩] 1).1 =
        .error ["missing"]) ∧
    (demoService.exposed_batch_commands [⟨"go", 2⟩, ⟨"go", 4⟩] 1 =
      (.ok [3, 7], 7)) := by
  constructor
  · exact (batch_commands_validate_then_run demoService
      [⟨"go", 2⟩, ⟨"missing", 0⟩] 1).1
      ⟨⟨"missing", 0⟩, by simp, rfl⟩
  · exact ((batch_commands_validate_then_run demoService
      [⟨"go", 2⟩, ⟨"go", 4⟩] 1).2
      (by intro c hc; fin_cases hc <;> decide)).2 [3, 7] 7 rfl

end Rpcad
